import Mathlib

/-!
Verification development for the txpool debug-dump converter
(`src/main.rs` of rust-txpool).

The program reads a textual debug dump, detects its shape by a marker
literal (`parse_debug_format`), and translates it to JSON either by a
line-oriented state machine (`parse_txpool_inspect`) or by an ordered
sequence of text-rewrite passes followed by a JSON parse
(`parse_txpool_content`).

Strings are modelled as `List Char`.  The Rust standard-library and
`regex`/`serde_json` operations used by the program are given explicit
executable models below, faithful to their semantics on the inputs in
scope (ASCII text; JSON numbers are integral in this format, so the
JSON-number model is the integer grammar).
-/

set_option maxRecDepth 10000

/-- Opening curly brace character (written via its code point). -/
def lbrace : Char := Char.ofNat 123

/-- Closing curly brace character (written via its code point). -/
def rbrace : Char := Char.ofNat 125

/-- The character list of a string literal. -/
def strL (s : String) : List Char := s.data

/-- `isPre p s`: `s` starts with `p` (Rust `str::starts_with`). -/
def isPre : List Char → List Char → Bool
  | [], _ => true
  | _ :: _, [] => false
  | p :: ps, c :: cs => p == c && isPre ps cs

/-- `stripPre p s`: Rust `str::strip_prefix`. -/
def stripPre : List Char → List Char → Option (List Char)
  | [], s => some s
  | _ :: _, [] => none
  | p :: ps, c :: cs => if p == c then stripPre ps cs else none

/-- `stripSuf p s`: Rust `str::strip_suffix`. -/
def stripSuf (p s : List Char) : Option (List Char) :=
  (stripPre p.reverse s.reverse).map List.reverse

/-- Rust `str::contains` (substring anywhere). -/
def containsL : List Char → List Char → Bool
  | s, pat =>
    match s with
    | [] => pat.isEmpty
    | _ :: cs => isPre pat s || containsL cs pat

/-- Whitespace as used by Rust `str::trim` / regex `\s` (ASCII part). -/
def rustWs (c : Char) : Bool :=
  c == ' ' || c == '\t' || c == '\n' || c == '\r' || c.toNat == 11 || c.toNat == 12

/-- Rust `str::trim`. -/
def rustTrim (s : List Char) : List Char :=
  ((s.dropWhile rustWs).reverse.dropWhile rustWs).reverse

/-- Rust `str::trim_end`. -/
def trimEndL (s : List Char) : List Char :=
  (s.reverse.dropWhile rustWs).reverse

/-- Rust `str::trim_matches(c)`: strip all leading and trailing copies of `c`. -/
def trimMatchesChar (s : List Char) (c : Char) : List Char :=
  (((s.dropWhile (fun x => x == c)).reverse).dropWhile (fun x => x == c)).reverse

/-- Word character of regex `\w` (ASCII): letters, digits, underscore. -/
def wordChar (c : Char) : Bool := c.isAlpha || c.isDigit || c == '_'

/-- Hex digit of regex `[0-9a-fA-F]`. -/
def hexDigit (c : Char) : Bool :=
  c.isDigit || ('a' ≤ c && c ≤ 'f') || ('A' ≤ c && c ≤ 'F')

/-- `u64::from_str`: optional leading `+`, nonempty digit run, value below `2 ^ 64`. -/
def parseU64 (s : List Char) : Option Nat :=
  let t := match s with
    | '+' :: r => r
    | _ => s
  if !t.isEmpty && t.all Char.isDigit then
    let n := t.foldl (fun acc c => acc * 10 + (c.toNat - 48)) 0
    if n < 2 ^ 64 then some n else none
  else none

/-- Split a character list at every newline (keeps empty pieces). -/
def splitNl : List Char → List (List Char)
  | [] => [[]]
  | c :: rest =>
    if c == '\n' then [] :: splitNl rest
    else
      match splitNl rest with
      | h :: t => (c :: h) :: t
      | [] => [[c]]

/-- Strip one trailing carriage return, as Rust `str::lines` does per line. -/
def stripCr (l : List Char) : List Char :=
  match l.getLast? with
  | some c => if c == '\r' then l.dropLast else l
  | none => l

/-- Rust `str::lines`. -/
def rustLines (s : List Char) : List (List Char) :=
  if s.isEmpty then []
  else
    let parts := splitNl s
    let parts := if parts.getLast? = some [] then parts.dropLast else parts
    parts.map stripCr

/-- JSON values (`serde_json::Value`); objects and this format's maps are
modelled as association lists with the program's insertion behaviour. -/
inductive Json where
  | null : Json
  | bool : Bool → Json
  | num : Int → Json
  | str : List Char → Json
  | arr : List Json → Json
  | obj : List (List Char × Json) → Json

/-- Map lookup on an association list (`serde_json::Map::get`). -/
def lookupAssoc : List (List Char × Json) → List Char → Option Json
  | [], _ => none
  | (k', v') :: rest, k => if k' = k then some v' else lookupAssoc rest k

/-- Map insert on an association list (`serde_json::Map::insert`:
replaces the value of an existing key, otherwise adds the entry). -/
def updateAssoc : List (List Char × Json) → List Char → Json → List (List Char × Json)
  | [], k, v => [(k, v)]
  | (k', v') :: rest, k, v =>
    if k' = k then (k', v) :: rest else (k', v') :: updateAssoc rest k v

/-- `Value::get` on a key: a lookup for objects, `none` for all other values. -/
def jsonGet : Json → List Char → Option Json
  | Json.obj fs, k => lookupAssoc fs k
  | _, _ => none

/-- Two-level lookup `pending[addr][nonce]` through object values. -/
def lookup2 (p : List (List Char × Json)) (a n : List Char) : Option Json :=
  match lookupAssoc p a with
  | some v => jsonGet v n
  | none => none

/-! ## The Inspect translator (`parse_txpool_inspect`) -/

/-- Mutable state of the Inspect loop: the `pending` map under
construction, `current_addr` and `current_nonce`. -/
structure InspectState where
  pending : List (List Char × Json)
  addr : Option (List Char)
  nonce : Option (List Char)

/-- The marker prefix that causes a line to be skipped. -/
def inspectMarker : List Char := strL "TxpoolInspect"

/-- The suffix of a nonce-header line. -/
def summaryTag : List Char := strL ": TxpoolInspectSummary \x7b"

/-- Match of regex `(\w{40}): {` at the start of `s`: forty word
characters, then the literal `: {`. -/
def addrMatchAt (s : List Char) : Option (List Char) :=
  let run := s.take 40
  if run.length = 40 && run.all wordChar && isPre (strL ": \x7b") (s.drop 40) then
    some run
  else none

/-- `addr_re.captures(trimmed)`: leftmost match of `(\w{40}): {`
anywhere in the line, returning the captured forty-character run. -/
def addrCapture : List Char → Option (List Char)
  | [] => none
  | c :: cs =>
    match addrMatchAt (c :: cs) with
    | some r => some r
    | none => addrCapture cs

/-- The transaction-field block of the Inspect loop: which key/value (if
any) a trimmed line writes into the current nonce object. `none` means
the line writes nothing (unknown shape, or a failed `u64` parse). -/
def fieldAction (t : List Char) : Option (List Char × Json) :=
  match stripPre (strL "to: Some(") t with
  | some to_val =>
    some (strL "to",
      Json.str ('0' :: 'x' :: trimMatchesChar (trimMatchesChar (rustTrim to_val) ',') ')'))
  | none =>
    if t = strL "to: None," then some (strL "to", Json.null)
    else
      match stripPre (strL "value: ") t with
      | some v =>
        (parseU64 (trimMatchesChar v ',')).map (fun n => (strL "value", Json.num (Int.ofNat n)))
      | none =>
        match stripPre (strL "gas: ") t with
        | some g =>
          (parseU64 (trimMatchesChar g ',')).map (fun n => (strL "gas", Json.num (Int.ofNat n)))
        | none =>
          match stripPre (strL "gas_price: ") t with
          | some gp =>
            (parseU64 (trimMatchesChar gp ',')).map
              (fun n => (strL "gas_price", Json.num (Int.ofNat n)))
          | none => none

/-- The field-update step: when an address and nonce are current and the
nonce entry exists, apply `fieldAction` inside it.  `none` models the
panic of `entry.as_object_mut().unwrap()` on a non-object entry. -/
def processFields (st : InspectState) (trimmed : List Char) : Option InspectState :=
  match st.addr, st.nonce with
  | some addr, some nonce =>
    match lookupAssoc st.pending addr with
    | some (Json.obj afs) =>
      match lookupAssoc afs nonce with
      | some (Json.obj efs) =>
        match fieldAction trimmed with
        | some kv =>
          some (InspectState.mk
            (updateAssoc st.pending addr
              (Json.obj (updateAssoc afs nonce (Json.obj (updateAssoc efs kv.1 kv.2)))))
            st.addr st.nonce)
        | none => some st
      | some _ => none
      | none => some st
    | _ => some st
  | _, _ => some st

/-- The nonce-header step: record the nonce and insert a fresh empty
object for it under the current address (creating the address object if
absent).  `none` models the panic of `as_object_mut().unwrap()` on a
non-object address entry. -/
def nonceStep (st : InspectState) (raw : List Char) : Option InspectState :=
  match st.addr with
  | none => some st
  | some addr =>
    let n := trimMatchesChar raw '"'
    match lookupAssoc st.pending addr with
    | none =>
      some (InspectState.mk (updateAssoc st.pending addr (Json.obj [(n, Json.obj [])]))
        st.addr (some n))
    | some (Json.obj afs) =>
      some (InspectState.mk
        (updateAssoc st.pending addr (Json.obj (updateAssoc afs n (Json.obj []))))
        st.addr (some n))
    | some _ => none

/-- The block-end rule: pop one level (`InNonce → InAddress`, else
`InAddress → Idle`). -/
def popState (st : InspectState) : InspectState :=
  if st.nonce.isSome then InspectState.mk st.pending st.addr none
  else if st.addr.isSome then InspectState.mk st.pending none st.nonce
  else st

/-- After the field block, a trimmed line equal to `},` or `}` pops one level. -/
def afterFields (st : InspectState) (trimmed : List Char) : InspectState :=
  if trimmed = strL "\x7d," ∨ trimmed = strL "\x7d" then popState st else st

/-- The branch structure of one Inspect-loop iteration, on the already
trimmed line. -/
def processLineT (st : InspectState) (trimmed : List Char) : Option InspectState :=
  if trimmed.isEmpty then some st
  else if isPre inspectMarker trimmed then some st
  else
    match addrCapture trimmed with
    | some a => some (InspectState.mk st.pending (some ('0' :: 'x' :: a)) st.nonce)
    | none =>
      match stripSuf summaryTag trimmed with
      | some raw => nonceStep st raw
      | none => (processFields st trimmed).map (fun st1 => afterFields st1 trimmed)

/-- One iteration of the Inspect loop on a raw input line. -/
def processLine (st : InspectState) (line : List Char) : Option InspectState :=
  processLineT st (rustTrim line)

/-- Run the Inspect loop over a list of lines. -/
def runLines : InspectState → List (List Char) → Option InspectState
  | st, [] => some st
  | st, l :: ls =>
    match processLine st l with
    | some st' => runLines st' ls
    | none => none

/-- The initial state: `root = {"pending": {}}`, no current address or nonce. -/
def initInspectState : InspectState := InspectState.mk [] none none

/-- `parse_txpool_inspect`: run the line loop and wrap the `pending` map.
`none` models a panic of one of the `unwrap`s. -/
def parse_txpool_inspect (input : List Char) : Option Json :=
  (runLines initInspectState (rustLines input)).map
    (fun st => Json.obj [(strL "pending", Json.obj st.pending)])

/-! ## The Content translator (`parse_txpool_content`)

Each `regex::Regex::replace_all` / `str::replace` pass is modelled by a
single left-to-right scan (`replaceRe`) driven by a matcher.  A matcher
receives the character preceding the current position (for `\b`) and the
remaining text, and — when its pattern matches at that position —
returns the number of characters the match consumes together with the
replacement text.  Matches are non-overlapping and scanning resumes
after the end of a match, as in the Rust libraries. -/

/-- A matcher: previous original character (for word boundaries), rest
of the text; yields (consumed length, replacement). -/
def Matcher : Type := Option Char → List Char → Option (Nat × List Char)

/-- Left-to-right replace-all scan.  The fuel argument only serves
structural recursion; `fuel ≥ length s` always suffices because every
step consumes at least one character. -/
def replaceReAux (m : Matcher) : Nat → Option Char → List Char → List Char
  | 0, _, s => s
  | _ + 1, _, [] => []
  | fuel + 1, prev, c :: cs =>
    match m prev (c :: cs) with
    | some (k, rep) =>
      let k1 := max k 1
      rep ++ replaceReAux m fuel ((c :: cs).get? (k1 - 1)) (List.drop k1 (c :: cs))
    | none => c :: replaceReAux m fuel (some c) cs

/-- Replace every non-overlapping match of `m` in `s`. -/
def replaceRe (m : Matcher) (s : List Char) : List Char :=
  replaceReAux m s.length none s

/-- Literal-substring matcher (`str::replace`). -/
def litM (pat rep : List Char) : Matcher := fun _ s =>
  if !pat.isEmpty && isPre pat s then some (pat.length, rep) else none

/-- Length of the leading whitespace run (regex `\s*`, greedy). -/
def wsRunLen (s : List Char) : Nat := (s.takeWhile rustWs).length

/-- Matcher of the per-wrapper regex `W\s*\{`, replaced by `{`. -/
def wrapReM (w : List Char) : Matcher := fun _ s =>
  if isPre w s then
    let rest := s.drop w.length
    let k := wsRunLen rest
    if (rest.drop k).head? = some lbrace then some (w.length + k + 1, [lbrace]) else none
  else none

/-- Matcher of the field regex `\bF\s*:`, replaced by `"F":`. -/
def fieldM (f : List Char) : Matcher := fun prev s =>
  let bOk := match prev with
    | none => true
    | some c => !wordChar c
  if bOk && isPre f s then
    let rest := s.drop f.length
    let k := wsRunLen rest
    if (rest.drop k).head? = some ':' then
      some (f.length + k + 1, '"' :: (f ++ ['"', ':']))
    else none
  else none

/-- Matcher of the hex regex `\b0x([0-9a-fA-F]*)\b`, replaced by `"0x$1"`. -/
def hexM : Matcher := fun prev s =>
  let bOk := match prev with
    | none => true
    | some c => !wordChar c
  if bOk && isPre (strL "0x") s then
    let rest := s.drop 2
    let run := rest.takeWhile hexDigit
    let endOk := match (rest.drop run.length).head? with
      | none => true
      | some c => !wordChar c
    if endOk then some (2 + run.length, '"' :: '0' :: 'x' :: (run ++ ['"'])) else none
  else none

/-- Matcher of `:\s*\(`, replaced by `: `. -/
def colonParenM : Matcher := fun _ s =>
  match s with
  | ':' :: rest =>
    let k := wsRunLen rest
    if (rest.drop k).head? = some '(' then some (1 + k + 1, strL ": ") else none
  | _ => none

/-- ASCII uppercase letter (regex `[A-Z]`). -/
def upperAZ (c : Char) : Bool := 'A' ≤ c && c ≤ 'Z'

/-- ASCII letter or digit (regex `[a-zA-Z0-9]`). -/
def alnumAZ (c : Char) : Bool := c.isAlpha || c.isDigit

/-- Matcher of the residual-tag regex `[A-Z][a-zA-Z0-9]*\{`, replaced by `{`. -/
def residualTagM : Matcher := fun _ s =>
  match s with
  | c :: rest =>
    if upperAZ c then
      let run := rest.takeWhile alnumAZ
      if (rest.drop run.length).head? = some lbrace then
        some (1 + run.length + 1, [lbrace])
      else none
    else none
  | [] => none

/-- Greatest index of a newline in a character list, if any. -/
def lastNlIdx : List Char → Option Nat
  | [] => none
  | c :: rest =>
    match lastNlIdx rest with
    | some j => some (j + 1)
    | none => if c == '\n' then some 0 else none

/-- Matcher of `:\s*([A-Z][a-zA-Z0-9]*)\s*\n\s*\{`, replaced by `: {`:
a colon, a tag name, then an all-whitespace gap containing a newline,
then the opening brace. -/
def residualTagNlM : Matcher := fun _ s =>
  match s with
  | ':' :: r1 =>
    let k1 := wsRunLen r1
    match r1.drop k1 with
    | c :: r2 =>
      if upperAZ c then
        let run := r2.takeWhile alnumAZ
        let r3 := r2.drop run.length
        let g := r3.takeWhile rustWs
        if g.contains '\n' && (r3.drop g.length).head? = some lbrace then
          some (1 + k1 + 1 + run.length + g.length + 1, strL ": " ++ [lbrace])
        else none
      else none
    | [] => none
  | _ => none

/-- Matcher of `:\s*(\d+)_`, replaced by `: $1`. -/
def underscoreM : Matcher := fun _ s =>
  match s with
  | ':' :: r1 =>
    let k := wsRunLen r1
    let r2 := r1.drop k
    let ds := r2.takeWhile Char.isDigit
    if !ds.isEmpty && (r2.drop ds.length).head? = some '_' then
      some (1 + k + ds.length + 1, strL ": " ++ ds)
    else none
  | _ => none

/-- Matcher of `a,\s*b` (two closing delimiters with a stray comma),
replaced by `ab`. -/
def closePairM (a b : Char) : Matcher := fun _ s =>
  match s with
  | c1 :: c2 :: rest =>
    if c1 == a && c2 == ',' then
      let k := wsRunLen rest
      if (rest.drop k).head? = some b then some (2 + k + 1, [a, b]) else none
    else none
  | _ => none

/-- Matcher of `,\s*b` (comma before a closing delimiter), replaced by `b`. -/
def commaCloseM (b : Char) : Matcher := fun _ s =>
  match s with
  | ',' :: rest =>
    let k := wsRunLen rest
    if (rest.drop k).head? = some b then some (1 + k + 1, [b]) else none
  | _ => none

/-- Matcher of `\n\s*,\s*\n` (a line holding only a comma), replaced by
`\n`.  The greedy `\s*\n` ends at the last newline of the whitespace
run following the comma. -/
def commaLineM : Matcher := fun _ s =>
  match s with
  | '\n' :: rest =>
    let k1 := wsRunLen rest
    match rest.drop k1 with
    | ',' :: r3 =>
      let w2 := r3.takeWhile rustWs
      match lastNlIdx w2 with
      | some j => some (1 + k1 + 1 + j + 1, ['\n'])
      | none => none
    | _ => none
  | _ => none

/-- Length of the leading value token of
`("0x[0-9a-fA-F]+"|true|false|\d+)`, if one starts here. -/
def valueTok (s : List Char) : Option Nat :=
  match s with
  | '"' :: '0' :: 'x' :: rest =>
    let run := rest.takeWhile hexDigit
    if !run.isEmpty && (rest.drop run.length).head? = some '"' then
      some (3 + run.length + 1)
    else none
  | 't' :: 'r' :: 'u' :: 'e' :: _ => some 4
  | 'f' :: 'a' :: 'l' :: 's' :: 'e' :: _ => some 5
  | c :: _ => if c.isDigit then some (s.takeWhile Char.isDigit).length else none
  | [] => none

/-- Matcher of `("0x[0-9a-fA-F]+"|true|false|\d+),\s*b`, replaced by `$1b`. -/
def valueCloseM (b : Char) : Matcher := fun _ s =>
  match valueTok s with
  | some tl =>
    match s.drop tl with
    | ',' :: r2 =>
      let k := wsRunLen r2
      if (r2.drop k).head? = some b then some (tl + 1 + k + 1, s.take tl ++ [b]) else none
    | _ => none
  | none => none

/-- The fixed wrapper-token catalog of step 1 (in source order). -/
def type_wrappers : List (List Char) :=
  [strL "TxpoolContent", strL "AnyRpcTransaction", strL "WithOtherFields",
   strL "Transaction", strL "Recovered", strL "Ethereum", strL "Eip1559",
   strL "Signed", strL "TxEip1559", strL "Call", strL "OnceLock",
   strL "PrimitiveSignature", strL "AccessList", strL "OtherFields",
   strL "AnyRpc", strL "Tx", strL "Legacy", strL "TxLegacy", strL "Eip2930",
   strL "TxEip2930", strL "Eip4844", strL "TxEip4844", strL "DepositReceipt",
   strL "DepositTransaction", strL "OpDepositReceipt", strL "SequentialReceipt",
   strL "Create", strL "AccessListItem", strL "TxEip7702", strL "Eip7702",
   strL "Authorization"]

/-- The fixed field-name catalog of step 3 (in source order). -/
def field_names : List (List Char) :=
  [strL "pending", strL "queued", strL "inner", strL "signer", strL "to",
   strL "value", strL "input", strL "signature", strL "y_parity", strL "r",
   strL "s", strL "hash", strL "block_hash", strL "block_number",
   strL "transaction_index", strL "effective_gas_price", strL "other",
   strL "chain_id", strL "nonce", strL "gas_limit", strL "max_fee_per_gas",
   strL "max_priority_fee_per_gas", strL "tx", strL "access_list", strL "gas",
   strL "gas_price", strL "from", strL "data", strL "type", strL "v",
   strL "address", strL "storage_keys", strL "blob_versioned_hashes",
   strL "max_fee_per_blob_gas", strL "authorization_list"]

/-- Step 1 for one wrapper: literal `W {`, literal `W(`, then regex `W\s*\{`. -/
def wrapperPass (s w : List Char) : List Char :=
  let s1 := replaceRe (litM (w ++ strL " \x7b") [lbrace]) s
  let s2 := replaceRe (litM (w ++ ['(']) ['(']) s1
  replaceRe (wrapReM w) s2

/-- Step 1: erase all cataloged wrapper tokens, in catalog order. -/
def wrapperErase (s : List Char) : List Char :=
  type_wrappers.foldl wrapperPass s

/-- Step 2: delete `Some(` and rewrite `None` to `null`. -/
def someNoneStep (s : List Char) : List Char :=
  replaceRe (litM (strL "None") (strL "null")) (replaceRe (litM (strL "Some(") []) s)

/-- Step 3: quote every cataloged field name, in catalog order. -/
def quoteFields (s : List Char) : List Char :=
  field_names.foldl (fun s f => replaceRe (fieldM f) s) s

/-- Step 4: rewrite `Create,` and `Create`-newline to `null`. -/
def createMap (s : List Char) : List Char :=
  replaceRe (litM (strL "Create\n") (strL "null\n"))
    (replaceRe (litM (strL "Create,") (strL "null,")) s)

/-- Step 5a: quote hex literals. -/
def hexQuote (s : List Char) : List Char := replaceRe hexM s

/-- Step 5b: parenthesis cleanup. -/
def parenClean (s : List Char) : List Char :=
  replaceRe (litM ['('] [])
    (replaceRe (litM [')'] [])
      (replaceRe (litM (strL "),") [','])
        (replaceRe colonParenM s)))

/-- The long indented empty-array literal of step 6: a newline, 48
spaces, `[],`, a newline, 44 spaces. -/
def longEmptyArr : List Char :=
  '\n' :: (List.replicate 48 ' ' ++ (strL "[],\n" ++ List.replicate 44 ' '))

/-- Step 6: fix empty objects/arrays. -/
def emptyFix (s : List Char) : List Char :=
  replaceRe (litM (strL " \x7b\x7d") (strL "\x7b\x7d"))
    (replaceRe (litM (strL "[]") (strL "[]"))
      (replaceRe (litM longEmptyArr (strL "[]")) s))

/-- Step 6b: remove residual type tags before braces. -/
def residualTags (s : List Char) : List Char :=
  replaceRe residualTagNlM (replaceRe residualTagM s)

/-- Step 7: remove an underscore after a colon-adjacent digit run. -/
def underscorePass (s : List Char) : List Char :=
  replaceRe underscoreM s

/-- Steps 8–9 (source lines 315–338): the five trailing-comma regexes,
then deletion of comma-only lines. -/
def fixTrailingCommas (s : List Char) : List Char :=
  replaceRe commaLineM
    (replaceRe (commaCloseM ']')
      (replaceRe (commaCloseM rbrace)
        (replaceRe (closePairM rbrace ']')
          (replaceRe (closePairM ']' rbrace)
            (replaceRe (closePairM rbrace rbrace) s)))))

/-- The two value-before-close regexes after step 9. -/
def valueCommaFix (s : List Char) : List Char :=
  replaceRe (valueCloseM ']') (replaceRe (valueCloseM rbrace) s)

/-- Lookahead of the final line pass: does the next non-blank line start
with a closing delimiter? -/
def nextNonEmptyStartsClose : List (List Char) → Bool
  | [] => false
  | l :: rest =>
    let t := rustTrim l
    if t.isEmpty then nextNonEmptyStartsClose rest
    else t.head? = some rbrace || t.head? = some ']'

/-- Body of the final cross-line pass: each line is right-trimmed; a
line ending in `},` or `],` loses the comma when the next non-blank
line starts with a closing delimiter. -/
def joinProcess : List (List Char) → List Char
  | [] => []
  | l :: rest =>
    let line := trimEndL l
    if (isPre (strL ",\x7d") line.reverse || isPre (strL ",]") line.reverse)
        && nextNonEmptyStartsClose rest then
      line.dropLast ++ '\n' :: joinProcess rest
    else line ++ '\n' :: joinProcess rest

/-- The final cross-line trailing-comma pass. -/
def finalLinePass (s : List Char) : List Char :=
  joinProcess (rustLines s)

/-- The whole Content rewrite pipeline, passes in source order. -/
def contentRewrite (s : List Char) : List Char :=
  finalLinePass
    (valueCommaFix
      (fixTrailingCommas
        (underscorePass
          (residualTags
            (emptyFix
              (parenClean
                (hexQuote
                  (createMap
                    (quoteFields
                      (someNoneStep
                        (wrapperErase s)))))))))))

/-! ## JSON parsing (`serde_json::from_str`) -/

/-- JSON whitespace. -/
def jsonWs (c : Char) : Bool := c == ' ' || c == '\t' || c == '\n' || c == '\r'

/-- Drop leading JSON whitespace. -/
def skipWs (s : List Char) : List Char := s.dropWhile jsonWs

/-- String body after an opening quote: returns content and the rest
after the closing quote.  Control characters must be escaped; the
escapes appearing in this format are supported. -/
def parseStrBody : List Char → Option (List Char × List Char)
  | [] => none
  | c :: r =>
    if c == '"' then some ([], r)
    else if c == '\\' then
      match r with
      | e :: r2 =>
        let ec : Option Char :=
          if e == '"' then some '"'
          else if e == '\\' then some '\\'
          else if e == '/' then some '/'
          else if e == 'n' then some '\n'
          else if e == 't' then some '\t'
          else if e == 'r' then some '\r'
          else none
        match ec with
        | some d => (parseStrBody r2).map (fun p => (d :: p.1, p.2))
        | none => none
      | [] => none
    else if c.toNat ≥ 32 then (parseStrBody r).map (fun p => (c :: p.1, p.2))
    else none

/-- Leading JSON number token: optional minus, integer part without
leading zeros.  Fraction/exponent forms do not occur in this format and
are rejected. -/
def parseNumTok (s : List Char) : Option (Json × List Char) :=
  let neg := match s with
    | '-' :: _ => true
    | _ => false
  let r := if neg then s.drop 1 else s
  let ds := r.takeWhile Char.isDigit
  if ds.isEmpty then none
  else if ds.length > 1 && ds.head? = some '0' then none
  else
    let rest := r.drop ds.length
    let bad := match rest.head? with
      | some c2 => c2 == '.' || c2 == 'e' || c2 == 'E'
      | none => false
    if bad then none
    else
      let v : Int := Int.ofNat (ds.foldl (fun acc c => acc * 10 + (c.toNat - 48)) 0)
      some (Json.num (if neg then -v else v), rest)

/-- A partially built container on the parser stack. -/
inductive Frame where
  | arrF : List Json → Frame
  | objF : List (List Char × Json) → List Char → Frame

/-- Parser mode: about to read a value, or just finished one. -/
inductive PMode where
  | expectVal : PMode
  | afterVal : Json → PMode

/-- Iterative JSON parser loop; every recursive step consumes at least
one character, so `fuel = length s + 2` always suffices. -/
def jpLoop : Nat → PMode → List Frame → List Char → Option Json
  | 0, _, _, _ => none
  | fuel + 1, PMode.expectVal, stack, s0 =>
    let s := skipWs s0
    match s with
    | [] => none
    | c :: rest =>
      if c == lbrace then
        match skipWs rest with
        | c2 :: r3 =>
          if c2 == rbrace then jpLoop fuel (PMode.afterVal (Json.obj [])) stack r3
          else if c2 == '"' then
            match parseStrBody r3 with
            | some (k, r4) =>
              match skipWs r4 with
              | ':' :: r6 => jpLoop fuel PMode.expectVal (Frame.objF [] k :: stack) r6
              | _ => none
            | none => none
          else none
        | [] => none
      else if c == '[' then
        match skipWs rest with
        | c2 :: _ =>
          if c2 == ']' then
            jpLoop fuel (PMode.afterVal (Json.arr [])) stack ((skipWs rest).drop 1)
          else jpLoop fuel PMode.expectVal (Frame.arrF [] :: stack) (skipWs rest)
        | [] => none
      else if c == '"' then
        match parseStrBody rest with
        | some (cs, r2) => jpLoop fuel (PMode.afterVal (Json.str cs)) stack r2
        | none => none
      else if isPre (strL "null") s then jpLoop fuel (PMode.afterVal Json.null) stack (s.drop 4)
      else if isPre (strL "true") s then
        jpLoop fuel (PMode.afterVal (Json.bool true)) stack (s.drop 4)
      else if isPre (strL "false") s then
        jpLoop fuel (PMode.afterVal (Json.bool false)) stack (s.drop 5)
      else
        match parseNumTok s with
        | some (v, r2) => jpLoop fuel (PMode.afterVal v) stack r2
        | none => none
  | fuel + 1, PMode.afterVal v, stack, s0 =>
    match stack with
    | [] => if (skipWs s0).isEmpty then some v else none
    | Frame.arrF acc :: st =>
      match skipWs s0 with
      | ',' :: r => jpLoop fuel PMode.expectVal (Frame.arrF (acc ++ [v]) :: st) r
      | c :: r =>
        if c == ']' then jpLoop fuel (PMode.afterVal (Json.arr (acc ++ [v]))) st r else none
      | [] => none
    | Frame.objF acc key :: st =>
      match skipWs s0 with
      | ',' :: r =>
        match skipWs r with
        | '"' :: r3 =>
          match parseStrBody r3 with
          | some (k2, r4) =>
            match skipWs r4 with
            | ':' :: r5 =>
              jpLoop fuel PMode.expectVal (Frame.objF (acc ++ [(key, v)]) k2 :: st) r5
            | _ => none
          | none => none
        | _ => none
      | c :: r =>
        if c == rbrace then
          jpLoop fuel (PMode.afterVal (Json.obj (acc ++ [(key, v)]))) st r
        else none
      | [] => none

/-- `serde_json::from_str` on this format (integral numbers). -/
def jsonParse (s : List Char) : Option Json :=
  jpLoop (s.length + 2) PMode.expectVal [] s

/-- `parse_txpool_content`: the rewrite pipeline followed by the JSON
parse; `none` is the `JsonSyntaxError` outcome. -/
def parse_txpool_content (s : List Char) : Option Json :=
  jsonParse (contentRewrite s)

/-! ## Format detection and entrypoint outcome -/

/-- Outcome of `parse_debug_format`: a JSON value, a JSON syntax error
on the Content path, a panic on the Inspect path (never reached, see
the totality theorem), or the unrecognized-format error. -/
inductive RunResult where
  | ok : Json → RunResult
  | jsonErr : RunResult
  | panicked : RunResult
  | unrecognized : RunResult

/-- The Content marker literal. -/
def contentMarker : List Char := strL "TxpoolContent"

/-- The Content branch of the dispatcher. -/
def runContent (s : List Char) : RunResult :=
  match parse_txpool_content s with
  | some j => RunResult.ok j
  | none => RunResult.jsonErr

/-- The Inspect branch of the dispatcher. -/
def runInspect (s : List Char) : RunResult :=
  match parse_txpool_inspect s with
  | some j => RunResult.ok j
  | none => RunResult.panicked

/-- `parse_debug_format`: marker-based format detection, Content first. -/
def parse_debug_format (s : List Char) : RunResult :=
  if containsL s contentMarker then runContent s
  else if containsL s inspectMarker then runInspect s
  else RunResult.unrecognized

/-- The value `main` writes to the output file, if any: `main` creates
`txpool_<ts>.json` only when `parse_debug_format` returns a value. -/
def mainOutput (s : List Char) : Option Json :=
  match parse_debug_format s with
  | RunResult.ok j => some j
  | _ => none

/-! ## Auxiliary definitions used by the claim statements -/

/-- A nesting of wrapper tokens around the minimal JSON object: the
struct-style form renders as `W <inner>` (the wrapper's brace is the
inner text's leading brace) and the tuple-style form as `W(<inner>)`. -/
inductive WrapNest where
  | base : WrapNest
  | braceW : List Char → WrapNest → WrapNest
  | parenW : List Char → WrapNest → WrapNest

/-- Render a wrapper nesting around the minimal object `{}`. -/
def renderNest : WrapNest → List Char
  | WrapNest.base => [lbrace, rbrace]
  | WrapNest.braceW w t => w ++ ' ' :: renderNest t
  | WrapNest.parenW w t => w ++ '(' :: (renderNest t ++ [')'])

/-- The wrapper tokens used by a nesting. -/
def nestTokens : WrapNest → List (List Char)
  | WrapNest.base => []
  | WrapNest.braceW w t => w :: nestTokens t
  | WrapNest.parenW w t => w :: nestTokens t

/-- A nesting is catalog-complete when its tokens come from the wrapper
catalog and every cataloged token occurs in it. -/
def nestWf (t : WrapNest) : Bool :=
  (nestTokens t).all (fun w => type_wrappers.contains w) &&
    type_wrappers.all (fun w => (nestTokens t).contains w)

/-- Struct-style (brace-form) stack of wrappers, outermost first. -/
def braceStack : List (List Char) → WrapNest
  | [] => WrapNest.base
  | w :: ws => WrapNest.braceW w (braceStack ws)

/-- Tuple-style (paren-form) stack of wrappers, outermost first. -/
def parenStack : List (List Char) → WrapNest
  | [] => WrapNest.base
  | w :: ws => WrapNest.parenW w (parenStack ws)

/-- Modelled from the spec's words, for comparison with the code (claim
C5): a trimmed line that "consists of 40 hexadecimal characters
followed by `: {`". -/
def specHexHeaderLine (l : List Char) : Bool :=
  l.length = 43 && (l.take 40).all hexDigit && isPre (strL ": \x7b") (l.drop 40)

/-- The field block's `unwrap` cannot panic in this state: if an
address and nonce are current and their entry exists, it is an object. -/
def entrySafe (st : InspectState) : Bool :=
  match st.addr, st.nonce with
  | some a, some n =>
    match lookupAssoc st.pending a with
    | some (Json.obj afs) =>
      match lookupAssoc afs n with
      | some (Json.obj _) => true
      | some _ => false
      | none => true
    | _ => true
  | _, _ => true

/-- The nonce step's `unwrap` cannot panic for this address: its
`pending` entry, if present, is an object. -/
def addrSlotOk (st : InspectState) (addr : List Char) : Bool :=
  match lookupAssoc st.pending addr with
  | some (Json.obj _) => true
  | some _ => false
  | none => true

/-- All values of the map are objects whose values are objects: the
shape invariant of the `pending` map under construction. -/
def WFp (p : List (List Char × Json)) : Prop :=
  ∀ kv, kv ∈ p → ∃ fs, kv.2 = Json.obj fs ∧
    ∀ kv2, kv2 ∈ fs → ∃ gs, kv2.2 = Json.obj gs

/-- Does a matcher match at some position of `s`, scanning with the
previous-character context `prev`? -/
def hasMatchB (m : Matcher) : Option Char → List Char → Bool
  | prev, [] => (m prev []).isSome
  | prev, c :: cs => (m prev (c :: cs)).isSome || hasMatchB m (some c) cs

/-- No pattern of the trailing-comma pass matches anywhere in `s`. -/
def noTrailingArtifact (s : List Char) : Bool :=
  !(hasMatchB (closePairM rbrace rbrace) none s ||
    hasMatchB (closePairM ']' rbrace) none s ||
    hasMatchB (closePairM rbrace ']') none s ||
    hasMatchB (commaCloseM rbrace) none s ||
    hasMatchB (commaCloseM ']') none s ||
    hasMatchB commaLineM none s)

/-- A forty-`a` test address. -/
def addrA : List Char := strL "aaaaaaaaaaaaaaaaaaaaaaaaaaaaaaaaaaaaaaaa"

/-- A forty-`b` test address. -/
def addrB : List Char := strL "bbbbbbbbbbbbbbbbbbbbbbbbbbbbbbbbbbbbbbbb"

/-- A forty-`z` test line head: `z` is a word character but not a hex digit. -/
def addrZ : List Char := strL "zzzzzzzzzzzzzzzzzzzzzzzzzzzzzzzzzzzzzzzz"

/-- Inspect dump with one address block, nonce `"5"`, a present
optional `to` field and a numeric `value` field. -/
def inspectDumpSome : List Char :=
  strL "TxpoolInspect \x7b\n" ++ addrA ++ strL ": \x7b\n" ++
  strL "\"5\": TxpoolInspectSummary \x7b\n" ++
  strL "to: Some(" ++ addrB ++ strL "),\n" ++
  strL "value: 100,\n\x7d,\n\x7d,\n\x7d"

/-- The same dump with the absent-optional literal `to: None,`. -/
def inspectDumpNone : List Char :=
  strL "TxpoolInspect \x7b\n" ++ addrA ++ strL ": \x7b\n" ++
  strL "\"5\": TxpoolInspectSummary \x7b\n" ++
  strL "to: None,\nvalue: 100,\n\x7d,\n\x7d,\n\x7d"

/-- Inspect dump whose header line is forty `z`s followed by `: {`. -/
def inspectDumpZ : List Char :=
  strL "TxpoolInspect \x7b\n" ++ addrZ ++ strL ": \x7b\n" ++
  strL "\"5\": TxpoolInspectSummary \x7b\n" ++
  strL "gas: 7,\n\x7d,\n\x7d,\n\x7d"

/-- Content dump holding both a bare `Create` marker (comma form) and
cataloged field names. -/
def contentDumpCreate : List Char :=
  strL "TxpoolContent \x7b\nto: Create,\ngas: 5,\n\x7d\n"

/-- Content dump holding a bare `Create` marker in newline form. -/
def contentDumpCreateNl : List Char :=
  strL "TxpoolContent \x7b\nto: Create\n\x7d\n"

/-- A state with an open address block and an open (empty) nonce entry. -/
def sampleOpenState : InspectState :=
  InspectState.mk [(strL "0x" ++ addrA, Json.obj [(strL "5", Json.obj [])])]
    (some (strL "0x" ++ addrA)) (some (strL "5"))

/-- A state whose nonce entry already holds a captured field. -/
def sampleFilledState : InspectState :=
  InspectState.mk
    [(strL "0x" ++ addrA, Json.obj [(strL "5", Json.obj [(strL "gas", Json.num 1)])])]
    (some (strL "0x" ++ addrA)) (some (strL "5"))


/-! ## Supporting lemmas -/

theorem lookupAssoc_mem {l : List (List Char × Json)} {k : List Char} {v : Json}
    (h : lookupAssoc l k = some v) : (k, v) ∈ l := by
  induction l with
  | nil => simp [lookupAssoc] at h
  | cons kv rest ih =>
    obtain ⟨k', v'⟩ := kv
    by_cases hk : k' = k
    · subst hk
      simp [lookupAssoc] at h
      subst h
      exact List.mem_cons_self _ _
    · simp [lookupAssoc, hk] at h
      exact List.mem_cons_of_mem _ (ih h)

theorem updateAssoc_mem {l : List (List Char × Json)} {k : List Char} {v : Json}
    {kv : List Char × Json} (h : kv ∈ updateAssoc l k v) : kv.2 = v ∨ kv ∈ l := by
  induction l with
  | nil =>
    simp [updateAssoc] at h
    subst h
    exact Or.inl rfl
  | cons kv' rest ih =>
    obtain ⟨k', v'⟩ := kv'
    by_cases hk : k' = k
    · subst hk
      simp [updateAssoc] at h
      rcases h with h | h
      · subst h; exact Or.inl rfl
      · exact Or.inr (List.mem_cons_of_mem _ h)
    · simp [updateAssoc, hk] at h
      rcases h with h | h
      · subst h; exact Or.inr (List.mem_cons_self _ _)
      · rcases ih h with h2 | h2
        · exact Or.inl h2
        · exact Or.inr (List.mem_cons_of_mem _ h2)

theorem updateAssoc_lookup_self (l : List (List Char × Json)) (k : List Char) (v : Json) :
    lookupAssoc (updateAssoc l k v) k = some v := by
  induction l with
  | nil => simp [updateAssoc, lookupAssoc]
  | cons kv rest ih =>
    obtain ⟨k', v'⟩ := kv
    by_cases hk : k' = k
    · subst hk; simp [updateAssoc, lookupAssoc]
    · simp [updateAssoc, lookupAssoc, hk, ih]

theorem WFp_update_obj {p : List (List Char × Json)} {addr : List Char}
    {afs : List (List Char × Json)}
    (hp : WFp p)
    (hafs : ∀ kv2, kv2 ∈ afs → ∃ gs, kv2.2 = Json.obj gs) :
    WFp (updateAssoc p addr (Json.obj afs)) := by
  intro kv hkv
  rcases updateAssoc_mem hkv with h | h
  · exact ⟨afs, h, hafs⟩
  · exact hp kv h

theorem WFp_nonceStep {st : InspectState} {raw : List Char}
    (hp : WFp st.pending) :
    ∃ st', nonceStep st raw = some st' ∧ WFp st'.pending := by
  unfold nonceStep
  cases haddr : st.addr with
  | none => exact ⟨st, rfl, hp⟩
  | some addr =>
    dsimp only
    cases hl : lookupAssoc st.pending addr with
    | none =>
      refine ⟨_, rfl, ?_⟩
      apply WFp_update_obj hp
      intro kv2 hkv2
      simp at hkv2
      exact ⟨[], by simp [hkv2]⟩
    | some v =>
      obtain ⟨afs, hv, hafs⟩ := hp _ (lookupAssoc_mem hl)
      subst hv
      refine ⟨_, rfl, ?_⟩
      apply WFp_update_obj hp
      intro kv2 hkv2
      rcases updateAssoc_mem hkv2 with h | h
      · exact ⟨[], h⟩
      · exact hafs _ h

theorem WFp_processFields {st : InspectState} (t : List Char)
    (hp : WFp st.pending) :
    ∃ st', processFields st t = some st' ∧ WFp st'.pending := by
  unfold processFields
  cases haddr : st.addr with
  | none => exact ⟨st, rfl, hp⟩
  | some addr =>
    cases hnonce : st.nonce with
    | none => exact ⟨st, rfl, hp⟩
    | some nonce =>
      dsimp only
      cases hl : lookupAssoc st.pending addr with
      | none => exact ⟨st, rfl, hp⟩
      | some v =>
        obtain ⟨afs, hv, hafs⟩ := hp _ (lookupAssoc_mem hl)
        subst hv
        dsimp only
        cases hl2 : lookupAssoc afs nonce with
        | none => exact ⟨st, rfl, hp⟩
        | some e =>
          obtain ⟨gs, he⟩ := hafs _ (lookupAssoc_mem hl2)
          subst he
          dsimp only
          cases hact : fieldAction t with
          | none => exact ⟨st, rfl, hp⟩
          | some kv =>
            dsimp only
            refine ⟨_, rfl, ?_⟩
            apply WFp_update_obj hp
            intro kv2 hkv2
            rcases updateAssoc_mem hkv2 with h | h
            · exact ⟨_, h⟩
            · exact hafs _ h

theorem WFp_processLineT {st : InspectState} (t : List Char)
    (hp : WFp st.pending) :
    ∃ st', processLineT st t = some st' ∧ WFp st'.pending := by
  unfold processLineT
  by_cases h1 : t.isEmpty
  · simp only [h1]
    exact ⟨st, by simp, hp⟩
  · simp only [h1]
    by_cases h2 : isPre inspectMarker t
    · simp only [h2]
      exact ⟨st, by simp, hp⟩
    · simp only [h2]
      cases h3 : addrCapture t with
      | some a =>
        simp only [Bool.false_eq_true, if_false]
        exact ⟨_, rfl, hp⟩
      | none =>
        simp only [Bool.false_eq_true, if_false]
        cases h4 : stripSuf summaryTag t with
        | some raw => exact WFp_nonceStep hp
        | none =>
          obtain ⟨st1, hst1, hwf1⟩ := WFp_processFields t hp
          rw [hst1]
          refine ⟨afterFields st1 t, rfl, ?_⟩
          unfold afterFields popState
          split
          · split
            · exact hwf1
            · split
              · exact hwf1
              · exact hwf1
          · exact hwf1

theorem runLines_isSome (ls : List (List Char)) :
    ∀ {st : InspectState}, WFp st.pending → (runLines st ls).isSome = true := by
  induction ls with
  | nil => intro st hp; simp [runLines]
  | cons l rest ih =>
    intro st hp
    obtain ⟨st', hst', hwf'⟩ := WFp_processLineT (rustTrim l) hp
    unfold runLines processLine
    rw [hst']
    exact ih hwf'

theorem processFields_action_none {st : InspectState} {t : List Char}
    (hs : entrySafe st = true) (ha : fieldAction t = none) :
    processFields st t = some st := by
  unfold processFields
  unfold entrySafe at hs
  cases haddr : st.addr with
  | none => rfl
  | some addr =>
    cases hnonce : st.nonce with
    | none => rfl
    | some nonce =>
      dsimp only
      rw [haddr, hnonce] at hs
      dsimp only at hs
      cases hl : lookupAssoc st.pending addr with
      | none => rfl
      | some v =>
        cases v with
        | obj afs =>
          dsimp only
          rw [hl] at hs
          dsimp only at hs
          cases hl2 : lookupAssoc afs nonce with
          | none => rfl
          | some e =>
            rw [hl2] at hs
            cases e with
            | obj efs => dsimp only; rw [ha]
            | null => simp at hs
            | bool b => simp at hs
            | num n => simp at hs
            | str s => simp at hs
            | arr xs => simp at hs
        | null => rfl
        | bool b => rfl
        | num n => rfl
        | str s => rfl
        | arr xs => rfl

theorem fieldAction_value_none {v : List Char}
    (h : parseU64 (trimMatchesChar v ',') = none) :
    fieldAction (strL "value: " ++ v) = none := by
  have h1 : stripPre (strL "to: Some(") (strL "value: " ++ v) = none := rfl
  have h2 : stripPre (strL "value: ") (strL "value: " ++ v) = some v := rfl
  have h3 : ¬(strL "value: " ++ v = strL "to: None,") := by
    intro hx
    have h4 := congrArg List.head? hx
    rw [show (strL "value: " ++ v).head? = some 'v' from rfl] at h4
    rw [show (strL "to: None,").head? = some 't' from rfl] at h4
    simp at h4
  unfold fieldAction
  rw [h1]
  dsimp only
  rw [if_neg h3, h2]
  dsimp only
  rw [h]
  rfl

theorem head_append_ne {v : List Char} {a b : Char} {p q : List Char}
    (hne : a ≠ b) : ¬(a :: p ++ v = b :: q) := by
  intro hx
  have h4 := congrArg List.head? hx
  simp at h4
  exact hne h4

theorem processLineT_value_skip {st : InspectState} {v : List Char}
    (h2 : addrCapture (strL "value: " ++ v) = none)
    (h3 : stripSuf summaryTag (strL "value: " ++ v) = none)
    (h4 : parseU64 (trimMatchesChar v ',') = none)
    (h5 : entrySafe st = true) :
    processLineT st (strL "value: " ++ v) = some st := by
  unfold processLineT
  rw [show (strL "value: " ++ v).isEmpty = false from rfl]
  rw [show isPre inspectMarker (strL "value: " ++ v) = false from rfl]
  simp only [Bool.false_eq_true, if_false]
  rw [h2]
  dsimp only
  rw [h3]
  dsimp only
  rw [processFields_action_none h5 (fieldAction_value_none h4)]
  dsimp only [Option.map]
  unfold afterFields
  rw [if_neg]
  intro hx
  rcases hx with hx | hx
  · exact head_append_ne (by decide) hx
  · exact head_append_ne (by decide) hx

theorem processLineT_addr {st : InspectState} {t a : List Char}
    (h1 : t.isEmpty = false)
    (h2 : isPre inspectMarker t = false)
    (h3 : addrCapture t = some a) :
    processLineT st t = some (InspectState.mk st.pending (some ('0' :: 'x' :: a)) st.nonce) := by
  unfold processLineT
  rw [h1, h2]
  simp only [Bool.false_eq_true, if_false]
  rw [h3]


theorem processFields_keeps {st : InspectState} {t : List Char} {st1 : InspectState}
    (h : processFields st t = some st1) : st1.addr = st.addr ∧ st1.nonce = st.nonce := by
  unfold processFields at h
  cases haddr : st.addr with
  | none => rw [haddr] at h; simp at h; subst h; exact ⟨haddr, rfl⟩
  | some addr =>
    rw [haddr] at h
    cases hnonce : st.nonce with
    | none => rw [hnonce] at h; simp at h; subst h; exact ⟨haddr, hnonce⟩
    | some nonce =>
      rw [hnonce] at h
      dsimp only at h
      cases hl : lookupAssoc st.pending addr with
      | none => rw [hl] at h; simp at h; subst h; exact ⟨haddr, hnonce⟩
      | some v =>
        rw [hl] at h
        cases v with
        | obj afs =>
          dsimp only at h
          cases hl2 : lookupAssoc afs nonce with
          | none => rw [hl2] at h; simp at h; subst h; exact ⟨haddr, hnonce⟩
          | some e =>
            rw [hl2] at h
            cases e with
            | obj efs =>
              dsimp only at h
              cases hact : fieldAction t with
              | none => rw [hact] at h; simp at h; subst h; exact ⟨haddr, hnonce⟩
              | some kv =>
                rw [hact] at h
                simp at h
                subst h
                exact ⟨rfl, rfl⟩
            | null => simp at h
            | bool b => simp at h
            | num n => simp at h
            | str s => simp at h
            | arr xs => simp at h
        | null => simp at h; subst h; exact ⟨haddr, hnonce⟩
        | bool b => simp at h; subst h; exact ⟨haddr, hnonce⟩
        | num n => simp at h; subst h; exact ⟨haddr, hnonce⟩
        | str s => simp at h; subst h; exact ⟨haddr, hnonce⟩
        | arr xs => simp at h; subst h; exact ⟨haddr, hnonce⟩

theorem nonceStep_addr {st : InspectState} {raw : List Char} {st1 : InspectState}
    (h : nonceStep st raw = some st1) : st1.addr = st.addr := by
  unfold nonceStep at h
  cases haddr : st.addr with
  | none => rw [haddr] at h; simp at h; subst h; exact haddr
  | some addr =>
    rw [haddr] at h
    dsimp only at h
    cases hl : lookupAssoc st.pending addr with
    | none => rw [hl] at h; simp at h; subst h; rfl
    | some v =>
      rw [hl] at h
      cases v with
      | obj afs => simp at h; subst h; rfl
      | null => simp at h
      | bool b => simp at h
      | num n => simp at h
      | str s => simp at h
      | arr xs => simp at h

theorem afterFields_addr (st1 : InspectState) (t : List Char) :
    (afterFields st1 t).addr = st1.addr ∨ (afterFields st1 t).addr = none := by
  unfold afterFields popState
  split
  · split
    · exact Or.inl rfl
    · split
      · exact Or.inr rfl
      · exact Or.inl rfl
  · exact Or.inl rfl

theorem processLineT_addr_stable {st : InspectState} {t : List Char} {st' : InspectState}
    (h3 : addrCapture t = none)
    (h : processLineT st t = some st') :
    st'.addr = st.addr ∨ st'.addr = none := by
  unfold processLineT at h
  by_cases h1 : t.isEmpty
  · rw [h1] at h; simp at h; subst h; exact Or.inl rfl
  · rw [Bool.not_eq_true] at h1
    rw [h1] at h
    by_cases h2 : isPre inspectMarker t
    · rw [h2] at h; simp at h; subst h; exact Or.inl rfl
    · rw [Bool.not_eq_true] at h2
      rw [h2] at h
      simp only [Bool.false_eq_true, if_false] at h
      rw [h3] at h
      dsimp only at h
      cases h4 : stripSuf summaryTag t with
      | some raw =>
        rw [h4] at h
        exact Or.inl (nonceStep_addr h)
      | none =>
        rw [h4] at h
        cases h5 : processFields st t with
        | none => rw [h5] at h; simp at h
        | some st1 =>
          rw [h5] at h
          simp at h
          subst h
          rcases afterFields_addr st1 t with h6 | h6
          · rw [h6, (processFields_keeps h5).1]
            exact Or.inl rfl
          · exact Or.inr h6

theorem fieldAction_close_none : fieldAction (strL "\x7d,") = none := rfl

theorem fieldAction_close2_none : fieldAction (strL "\x7d") = none := rfl

theorem processLineT_pop {st : InspectState} {t : List Char}
    (hs : entrySafe st = true)
    (ht : t = strL "\x7d," ∨ t = strL "\x7d") :
    processLineT st t = some (popState st) := by
  rcases ht with ht | ht <;> subst ht
  · unfold processLineT
    rw [show (strL "\x7d,").isEmpty = false from rfl]
    rw [show isPre inspectMarker (strL "\x7d,") = false from rfl]
    simp only [Bool.false_eq_true, if_false]
    rw [show addrCapture (strL "\x7d,") = none from rfl]
    dsimp only
    rw [show stripSuf summaryTag (strL "\x7d,") = none from rfl]
    dsimp only
    rw [processFields_action_none hs fieldAction_close_none]
    dsimp only [Option.map]
    unfold afterFields
    rw [if_pos (Or.inl rfl)]
  · unfold processLineT
    rw [show (strL "\x7d").isEmpty = false from rfl]
    rw [show isPre inspectMarker (strL "\x7d") = false from rfl]
    simp only [Bool.false_eq_true, if_false]
    rw [show addrCapture (strL "\x7d") = none from rfl]
    dsimp only
    rw [show stripSuf summaryTag (strL "\x7d") = none from rfl]
    dsimp only
    rw [processFields_action_none hs fieldAction_close2_none]
    dsimp only [Option.map]
    unfold afterFields
    rw [if_pos (Or.inr rfl)]

theorem processLineT_nonce {st : InspectState} {t raw addr : List Char}
    (h1 : t.isEmpty = false)
    (h2 : isPre inspectMarker t = false)
    (h3 : addrCapture t = none)
    (h4 : stripSuf summaryTag t = some raw)
    (h5 : st.addr = some addr)
    (h6 : addrSlotOk st addr = true) :
    ∃ st', processLineT st t = some st' ∧
      st'.nonce = some (trimMatchesChar raw '"') ∧
      lookup2 st'.pending addr (trimMatchesChar raw '"') = some (Json.obj []) := by
  unfold processLineT
  rw [h1, h2]
  simp only [Bool.false_eq_true, if_false]
  rw [h3]
  dsimp only
  rw [h4]
  unfold nonceStep
  rw [h5]
  dsimp only
  unfold addrSlotOk at h6
  cases hl : lookupAssoc st.pending addr with
  | none =>
    refine ⟨_, rfl, rfl, ?_⟩
    unfold lookup2
    rw [updateAssoc_lookup_self]
    unfold jsonGet lookupAssoc
    rw [if_pos rfl]
  | some v =>
    rw [hl] at h6
    cases v with
    | obj afs =>
      refine ⟨_, rfl, rfl, ?_⟩
      unfold lookup2
      rw [updateAssoc_lookup_self]
      dsimp only [jsonGet]
      rw [updateAssoc_lookup_self]
    | null => simp at h6
    | bool b => simp at h6
    | num n => simp at h6
    | str s => simp at h6
    | arr xs => simp at h6

theorem replaceReAux_noMatch {m : Matcher} :
    ∀ (fuel : Nat) (prev : Option Char) (s : List Char),
    hasMatchB m prev s = false → replaceReAux m fuel prev s = s := by
  intro fuel
  induction fuel with
  | zero => intro prev s h; rfl
  | succ n ih =>
    intro prev s h
    cases s with
    | nil => rfl
    | cons c cs =>
      unfold hasMatchB at h
      simp only [Bool.or_eq_false_iff] at h
      obtain ⟨ha, hb⟩ := h
      unfold replaceReAux
      cases hm : m prev (c :: cs) with
      | some kr => rw [hm] at ha; simp at ha
      | none => dsimp only; rw [ih (some c) cs hb]

theorem replaceRe_noMatch {m : Matcher} {s : List Char}
    (h : hasMatchB m none s = false) : replaceRe m s = s :=
  replaceReAux_noMatch s.length none s h

theorem fixTrailingCommas_noArt {s : List Char}
    (h : noTrailingArtifact s = true) : fixTrailingCommas s = s := by
  unfold noTrailingArtifact at h
  simp only [Bool.not_eq_true', Bool.or_eq_false_iff] at h
  obtain ⟨⟨⟨⟨⟨h1, h2⟩, h3⟩, h4⟩, h5⟩, h6⟩ := h
  unfold fixTrailingCommas
  rw [replaceRe_noMatch h1, replaceRe_noMatch h2, replaceRe_noMatch h3,
    replaceRe_noMatch h4, replaceRe_noMatch h5, replaceRe_noMatch h6]

/-! ## Claim theorems -/

set_option maxHeartbeats 12000000

/-- Claim C1, counterexample: it is not the case that every nesting of
cataloged wrapper tokens around the minimal object round-trips.  The
struct-style stack of the whole catalog in catalog order strands the
wrapper names whose erasure turn has already passed when their brace
becomes adjacent, and the rewritten text fails the JSON parse. -/
theorem c1_counterexample :
    ¬ (∀ t : WrapNest, nestWf t = true →
        parse_txpool_content (renderNest t) = some (Json.obj [])) := by
  intro h
  have h2 := h (braceStack type_wrappers) (by rfl)
  rw [show parse_txpool_content (renderNest (braceStack type_wrappers)) = none from rfl] at h2
  exact Option.noConfusion h2

/-- Claim C1, amended: wrapping the minimal object `{}` with every
cataloged wrapper token in tuple (paren) form, nested in catalog order,
runs through the full pipeline and the JSON parse back to the original
empty object; arbitrary struct-style (brace-form) stackings may instead
fail to parse. -/
theorem c1_paren_roundtrip :
    nestWf (parenStack type_wrappers) = true ∧
    parse_txpool_content (renderNest (parenStack type_wrappers)) = some (Json.obj []) :=
  ⟨by rfl, by rfl⟩

/-- Claim C2: if the text contains the Content marker the Content
translator runs (checked first, so it wins when both markers occur);
otherwise, with the Inspect marker present, the Inspect translator
runs; with neither marker the run fails with the unrecognized-format
error and `main` writes no output file. -/
theorem c2_detection :
    ∀ s : List Char,
      (containsL s contentMarker = true → parse_debug_format s = runContent s) ∧
      (containsL s contentMarker = false → containsL s inspectMarker = true →
        parse_debug_format s = runInspect s) ∧
      (containsL s contentMarker = false → containsL s inspectMarker = false →
        parse_debug_format s = RunResult.unrecognized ∧ mainOutput s = none) := by
  intro s
  refine ⟨?_, ?_, ?_⟩
  · intro h
    unfold parse_debug_format
    rw [if_pos h]
  · intro h1 h2
    unfold parse_debug_format
    rw [if_neg (by simp [h1]), if_pos h2]
  · intro h1 h2
    have he : parse_debug_format s = RunResult.unrecognized := by
      unfold parse_debug_format
      rw [if_neg (by simp [h1]), if_neg (by simp [h2])]
    refine ⟨he, ?_⟩
    unfold mainOutput
    rw [he]

/-- Claim C2, witness: concrete texts for the three detection branches;
the first contains both markers and still selects Content. -/
theorem c2_detection_witness :
    (parse_debug_format (strL "TxpoolContent TxpoolInspect") =
      runContent (strL "TxpoolContent TxpoolInspect")) ∧
    (parse_debug_format (strL "TxpoolInspect dump") =
      runInspect (strL "TxpoolInspect dump")) ∧
    (parse_debug_format (strL "plain text") = RunResult.unrecognized ∧
      mainOutput (strL "plain text") = none) :=
  ⟨(c2_detection _).1 (by rfl),
   (c2_detection _).2.1 (by rfl) (by rfl),
   (c2_detection _).2.2 (by rfl) (by rfl)⟩

/-- Claim C3: the Inspect translator succeeds on every input (no
structural error, no panic), and a `value: ` line whose numeric text
fails the `u64` parse leaves the state completely unchanged — the field
is silently omitted, not surfaced as an error or a wrong-typed value. -/
theorem c3_inspect_total :
    (∀ input : List Char, (parse_txpool_inspect input).isSome = true) ∧
    (∀ (st : InspectState) (v : List Char),
      addrCapture (strL "value: " ++ v) = none →
      stripSuf summaryTag (strL "value: " ++ v) = none →
      parseU64 (trimMatchesChar v ',') = none →
      entrySafe st = true →
      processLineT st (strL "value: " ++ v) = some st) := by
  constructor
  · intro input
    unfold parse_txpool_inspect
    have hwf : WFp initInspectState.pending := by
      intro kv hkv
      simp [initInspectState] at hkv
    have h := runLines_isSome (rustLines input) hwf
    cases hr : runLines initInspectState (rustLines input) with
    | none => rw [hr] at h; simp at h
    | some stf => rfl
  · intro st v h2 h3 h4 h5
    exact processLineT_value_skip h2 h3 h4 h5

/-- Claim C3, witness: a concrete run, and a concrete unparsable
`value:` line left as a no-op on the initial state. -/
theorem c3_inspect_total_witness :
    (parse_txpool_inspect (strL "TxpoolInspect")).isSome = true ∧
    processLineT initInspectState (strL "value: " ++ strL "abc,") = some initInspectState :=
  ⟨c3_inspect_total.1 _,
   c3_inspect_total.2 initInspectState (strL "abc,") (by rfl) (by rfl) (by rfl) (by rfl)⟩

/-- Claim C4: the one-address Inspect dump with nonce `"5"`, a present
optional `to` field and a numeric `value` field translates to
`{"pending": {"0x<addr>": {"5": {"to": "0x<addr2>", "value": 100}}}}`;
the absent-optional literal `to: None,` yields the key `to` bound to
JSON null, not an omitted key. -/
theorem c4_inspect_example :
    parse_txpool_inspect inspectDumpSome =
      some (Json.obj [(strL "pending", Json.obj [(strL "0x" ++ addrA, Json.obj [(strL "5",
        Json.obj [(strL "to", Json.str (strL "0x" ++ addrB)),
          (strL "value", Json.num 100)])])])]) ∧
    parse_txpool_inspect inspectDumpNone =
      some (Json.obj [(strL "pending", Json.obj [(strL "0x" ++ addrA, Json.obj [(strL "5",
        Json.obj [(strL "to", Json.null), (strL "value", Json.num 100)])])])]) :=
  ⟨by rfl, by rfl⟩

/-- Claim C5, counterexample: a trimmed line of forty `z`s followed by
`: {` is not forty hexadecimal characters, yet it begins an address
block — the dump translates with `0x<40 z's>` as an address key.  The
address regex accepts any word characters, not just hex digits. -/
theorem c5_counterexample :
    specHexHeaderLine (addrZ ++ strL ": \x7b") = false ∧
    parse_txpool_inspect inspectDumpZ =
      some (Json.obj [(strL "pending", Json.obj [(strL "0x" ++ addrZ, Json.obj [(strL "5",
        Json.obj [(strL "gas", Json.num 7)])])])]) :=
  ⟨by rfl, by rfl⟩

/-- Claim C5, amended: a non-skipped line begins an address block
exactly when the line contains, anywhere, forty word characters
(letters, digits, underscore) immediately followed by `: {`; the
leftmost such run prefixed with `0x` becomes the current address and
nothing else changes — in particular the address's object is not
created yet (that happens at its first nonce header).  A line with no
such run never sets a new address (it can only keep or clear it). -/
theorem c5_amended :
    (∀ (st : InspectState) (t a : List Char),
      t.isEmpty = false → isPre inspectMarker t = false → addrCapture t = some a →
      processLineT st t =
        some (InspectState.mk st.pending (some ('0' :: 'x' :: a)) st.nonce)) ∧
    (∀ (st : InspectState) (t : List Char) (st' : InspectState),
      addrCapture t = none → processLineT st t = some st' →
      st'.addr = st.addr ∨ st'.addr = none) :=
  ⟨fun _ _ _ h1 h2 h3 => processLineT_addr h1 h2 h3,
   fun _ _ _ h3 h => processLineT_addr_stable h3 h⟩

/-- Claim C5, amended, witness: the forty-`z` header line sets the
address on the initial state; a non-matching line keeps the address. -/
theorem c5_amended_witness :
    processLineT initInspectState (addrZ ++ strL ": \x7b") =
      some (InspectState.mk initInspectState.pending (some ('0' :: 'x' :: addrZ))
        initInspectState.nonce) ∧
    (initInspectState.addr = initInspectState.addr ∨ initInspectState.addr = none) :=
  ⟨c5_amended.1 initInspectState _ addrZ (by rfl) (by rfl) (by rfl),
   c5_amended.2 initInspectState (strL "junk") initInspectState (by rfl) (by rfl)⟩

/-- Claim C6: every trimmed line equal to `}` or `},` pops exactly one
level (clearing the nonce when one is open, else clearing the address),
whatever the actual nesting; and at end of input the remaining open
state is simply discarded — the output is built from `pending` alone,
with no unterminated-block error. -/
theorem c6_pop_rule :
    (∀ (st : InspectState) (t : List Char), entrySafe st = true →
      (t = strL "\x7d," ∨ t = strL "\x7d") →
      processLineT st t = some (popState st)) ∧
    (∀ (input : List Char) (stf : InspectState),
      runLines initInspectState (rustLines input) = some stf →
      parse_txpool_inspect input =
        some (Json.obj [(strL "pending", Json.obj stf.pending)])) := by
  constructor
  · intro st t hs ht
    exact processLineT_pop hs ht
  · intro input stf h
    unfold parse_txpool_inspect
    rw [h]
    rfl

/-- Claim C6, witness: `},` pops the open nonce of a concrete state,
and a dump reduced to its marker line yields `{"pending": {}}` with the
final open state discarded. -/
theorem c6_pop_rule_witness :
    processLineT sampleOpenState (strL "\x7d,") = some (popState sampleOpenState) ∧
    parse_txpool_inspect (strL "TxpoolInspect") =
      some (Json.obj [(strL "pending", Json.obj initInspectState.pending)]) :=
  ⟨c6_pop_rule.1 sampleOpenState (strL "\x7d,") (by rfl) (Or.inl rfl),
   c6_pop_rule.2 (strL "TxpoolInspect") initInspectState (by rfl)⟩

/-- Claim C7, counterexample: the trailing-comma pass is not
idempotent.  On `, , }` one application collapses only the inner
artifact (`, }`), a second application collapses the artifact the first
one produced. -/
theorem c7_counterexample :
    ¬ (∀ s : List Char, fixTrailingCommas (fixTrailingCommas s) = fixTrailingCommas s) := by
  intro h
  have h2 := h (strL ", , \x7d")
  rw [show fixTrailingCommas (strL ", , \x7d") = strL ", \x7d" from rfl] at h2
  rw [show fixTrailingCommas (strL ", \x7d") = strL "\x7d" from rfl] at h2
  exact absurd h2 (by decide)

/-- Claim C7, amended: each collapse is a single left-to-right scan, so
the pass is idempotent exactly on inputs whose first application leaves
no collapsible artifact: whenever no pattern of the pass matches its
output, a second application changes nothing. -/
theorem c7_amended :
    ∀ s : List Char, noTrailingArtifact (fixTrailingCommas s) = true →
      fixTrailingCommas (fixTrailingCommas s) = fixTrailingCommas s :=
  fun _ h => fixTrailingCommas_noArt h

/-- Claim C7, amended, witness: `, }` collapses to `}` and is then a
fixed point. -/
theorem c7_amended_witness :
    noTrailingArtifact (fixTrailingCommas (strL ", \x7d")) = true ∧
    fixTrailingCommas (fixTrailingCommas (strL ", \x7d")) = fixTrailingCommas (strL ", \x7d") :=
  ⟨by decide, c7_amended (strL ", \x7d") (by decide)⟩

/-- Claim C8, counterexample: the digit-group pass does not remove
every underscore after a colon: `: 1_000_000` rewrites to
`: 1000_000`, which still contains an underscore (scanning resumes
after the match, and the remaining digits follow no colon). -/
theorem c8_counterexample :
    underscorePass (strL ": 1_000_000") = strL ": 1000_000" ∧
    (underscorePass (strL ": 1_000_000")).contains '_' = true :=
  ⟨by rfl, by rfl⟩

/-- Claim C8, amended: at each colon-adjacent digit run the pass
removes only the first underscore; a single-separator figure becomes a
plain digit run, a multi-separator figure keeps its later separators. -/
theorem c8_amended :
    underscorePass (strL ": 12_34,") = strL ": 1234," ∧
    underscorePass (strL ": 1_000_000") = strL ": 1000_000" :=
  ⟨by rfl, by rfl⟩

/-- Claim C9: on a record holding both a bare `Create` marker and
cataloged field names, the marker (comma form and newline form) maps to
JSON null after field quoting, and the quoted field names parse back
undisturbed. -/
theorem c9_create_mapping :
    parse_txpool_content contentDumpCreate =
      some (Json.obj [(strL "to", Json.null), (strL "gas", Json.num 5)]) ∧
    parse_txpool_content contentDumpCreateNl =
      some (Json.obj [(strL "to", Json.null)]) :=
  ⟨by rfl, by rfl⟩

/-- Claim C10: every nonce-header line inserts a fresh empty object for
the captured nonce under the current address; an existing object under
the same nonce is replaced, discarding previously captured fields. -/
theorem c10_nonce_replaces :
    ∀ (st : InspectState) (t raw addr : List Char),
      t.isEmpty = false → isPre inspectMarker t = false →
      addrCapture t = none → stripSuf summaryTag t = some raw →
      st.addr = some addr → addrSlotOk st addr = true →
      ∃ st', processLineT st t = some st' ∧
        st'.nonce = some (trimMatchesChar raw '"') ∧
        lookup2 st'.pending addr (trimMatchesChar raw '"') = some (Json.obj []) :=
  fun _ _ _ _ h1 h2 h3 h4 h5 h6 => processLineT_nonce h1 h2 h3 h4 h5 h6

/-- Claim C10, witness: reprocessing the nonce-`"5"` header on a state
whose `"5"` entry already holds a field replaces it by a fresh empty
object. -/
theorem c10_nonce_replaces_witness :
    ∃ st', processLineT sampleFilledState (strL "\"5\": TxpoolInspectSummary \x7b") = some st' ∧
      st'.nonce = some (trimMatchesChar (strL "\"5\"") '"') ∧
      lookup2 st'.pending (strL "0x" ++ addrA) (trimMatchesChar (strL "\"5\"") '"') =
        some (Json.obj []) :=
  c10_nonce_replaces sampleFilledState (strL "\"5\": TxpoolInspectSummary \x7b")
    (strL "\"5\"") (strL "0x" ++ addrA)
    (by rfl) (by rfl) (by rfl) (by rfl) (by rfl) (by rfl)
